import Mathlib

/-!
# Verification of the core-lines renewal dashboard (`coreline.py`)

A shallow embedding of the data model and the classification / aggregation
pipeline of `src/coreline.py`, together with theorems settling the frozen
claims about it.  Monetary amounts and rates are modelled as exact rationals;
row tables are modelled as `List Row`; pandas group-bys are modelled as
"distinct keys, then per-key aggregation over the filtered rows".
-/

namespace Coreline

/-! ## Reference data (`get_stage_metadata`, `get_business_type_categories`,
`get_core_lines`) -/

/-- The stage table of `get_stage_metadata`, flattened to
`stage name ↦ category` (the Python value is `{"category": c}`). -/
def get_stage_metadata : List (String × String) :=
  [("New", "Open"),
   ("Information Gathering", "Open"),
   ("Rating", "Open"),
   ("Proposal Generation", "Open"),
   ("Decision Pending", "Open"),
   ("Pre-Bind Review", "Open"),
   ("Quote to Bind", "Open"),
   ("Binding", "Open"),
   ("Billing", "Open"),
   ("Post-Binding", "Open"),
   ("Closed Won", "Won"),
   ("Closed Lost", "Lost")]

/-- The business-type table of `get_business_type_categories`. -/
def get_business_type_categories : List (String × String) :=
  [("Bond", "Commercial"),
   ("Builders Risk/Installation - CL", "Commercial"),
   ("Bumbershoot", "Commercial"),
   ("Business Owners", "Commercial"),
   ("Commercial Auto", "Commercial"),
   ("Commercial Package", "Commercial"),
   ("Commercial Property", "Commercial"),
   ("Commercial Umbrella", "Commercial"),
   ("Crime", "Commercial"),
   ("Cyber & Privacy Liability", "Commercial"),
   ("Directors & Officers", "Commercial"),
   ("Dwelling Fire CL", "Commercial"),
   ("Errors and Omissions", "Commercial"),
   ("Flood - CL", "Commercial"),
   ("General Liability", "Commercial"),
   ("Inland Marine CL", "Commercial"),
   ("Marine Package", "Commercial"),
   ("Surety", "Commercial"),
   ("Workers Compensation", "Commercial"),
   ("Employment Practices Liability", "Commercial"),
   ("Liquor Liability", "Commercial"),
   ("Wind Only - CL", "Commercial"),
   ("Builders Risk/Installation - PL", "Homeowners"),
   ("Dwelling Fire - PL", "Homeowners"),
   ("Homeowners", "Homeowners"),
   ("Mobile Homeowners", "Homeowners"),
   ("Wind Only - PL", "Homeowners"),
   ("Charter Watercraft", "Marine"),
   ("Watercraft", "Marine"),
   ("Yacht", "Marine"),
   ("Flood - PL", "Flood"),
   ("Golf Cart", "Specialty"),
   ("Inland Marine PL", "Specialty"),
   ("Motorcycle/ATV", "Specialty"),
   ("Motorhome", "Specialty"),
   ("Recreational Vehicle", "Specialty"),
   ("Travel Trailer", "Specialty"),
   ("Life", "Life"),
   ("Personal Auto", "Auto"),
   ("Personal Liability", "CPL"),
   ("Umbrella", "Umbrella")]

/-- Models `get_core_lines()`: the eight core business lines. -/
def get_core_lines : List String :=
  ["Auto", "CPL", "Commercial", "Flood", "Homeowners", "Marine", "Specialty", "Umbrella"]

/-- The four outcome categories of the data model. -/
def outcomeCategories : List String := ["Open", "Won", "Lost", "Unknown"]

/-- The fixed closed set of business categories: every value of the
business-type table together with the fallback `"Other"`. -/
def businessCategories : List String :=
  ["Commercial", "Homeowners", "Marine", "Flood", "Specialty", "Life", "Auto",
   "CPL", "Umbrella", "Other"]

/-! ## Classifier
`stage_metadata.get(stage_name, {"category": "Unknown"})["category"]` and
`business_type_categories.get(business_type, "Other")`: exact-match lookup
with a default. -/

/-- Stage classification of a raw stage name. -/
def stageCategoryOf (stageName : String) : String :=
  (get_stage_metadata.lookup stageName).getD "Unknown"

/-- Business-type classification of a raw business type. -/
def businessCategoryOf (businessType : String) : String :=
  (get_business_type_categories.lookup businessType).getD "Other"

/-! ## Data model -/

/-- A calendar date, as carried by `CloseDate`. -/
structure Date where
  year : ℕ
  month : ℕ
  day : ℕ
deriving DecidableEq, Repr

/-- One flat opportunity row, as built in `connect_to_salesforce`. -/
structure Row where
  stageName : String
  statusCategory : String
  renewalType : String
  businessType : String
  businessCategory : String
  accountManager : String
  closeDate : Option Date
  accountName : String
  premium : ℚ
deriving DecidableEq, Repr

/-! ## Record fetcher (`connect_to_salesforce`)
The Salesforce queries themselves are the external collaborator; the outcome
of the fetch is either the queried data or a failure.  The whole body of
`connect_to_salesforce` sits inside one `try`/`except` that returns an empty
frame on any failure. -/

/-- A raw opportunity record as returned by the opportunity query. -/
structure RawOpp where
  stageName : String
  businessType : String
  accountId : String
  accountName : String
  renewalType : String
  closeDate : Option Date
  premium : ℚ
deriving DecidableEq, Repr

/-- Outcome of the external fetch: the account map data and opportunity
records on success, or a failure message (connection, auth or query error). -/
inductive FetchOutcome where
  | success (accountManagerMap : List (String × String)) (opps : List RawOpp)
  | failure (msg : String)

/-- Row construction in the per-record loop of `connect_to_salesforce`:
classification plus account-manager resolution
(`account_manager_map.get(account_id, "Not Assigned")`). -/
def buildRow (accountManagerMap : List (String × String)) (o : RawOpp) : Row :=
  { stageName := o.stageName
    statusCategory := stageCategoryOf o.stageName
    renewalType := o.renewalType
    businessType := o.businessType
    businessCategory := businessCategoryOf o.businessType
    accountManager := (accountManagerMap.lookup o.accountId).getD "Not Assigned"
    closeDate := o.closeDate
    accountName := o.accountName
    premium := o.premium }

/-- Models `connect_to_salesforce`: on success the joined, classified rows; on any
exception an empty DataFrame (`return pd.DataFrame()`). -/
def connect_to_salesforce : FetchOutcome → List Row
  | .success amap opps => opps.map (buildRow amap)
  | .failure _ => []

/-- The dashboard's top-level branch on the fetched frame:
`if not df.empty: ...reports... else: st.error("No data available ...")`. -/
inductive DashboardState where
  | noData
  | reports (rows : List Row)
deriving DecidableEq, Repr

/-- The branch on `df.empty` at the top of the Streamlit body. -/
def renderDashboard (rows : List Row) : DashboardState :=
  if rows.isEmpty then .noData else .reports rows

/-! ## Sorting helper
`DataFrame.sort_values(col, ascending=False)`, modelled as an insertion sort
by a rational-valued key, descending. -/

/-- Relation `DescBy key a b` means `a` sorts no later than `b` when ordering
descending by `key`. -/
abbrev DescBy {α : Type} (key : α → ℚ) : α → α → Prop :=
  fun a b => key b ≤ key a

instance {α : Type} (key : α → ℚ) : IsTotal α (DescBy key) :=
  ⟨fun a b => le_total (key b) (key a)⟩

instance {α : Type} (key : α → ℚ) : IsTrans α (DescBy key) :=
  ⟨fun _ _ _ hab hbc => le_trans hbc hab⟩

/-- Models `sort_values` descending by a rational key. -/
def sortValuesDesc {α : Type} (key : α → ℚ) (l : List α) : List α :=
  List.insertionSort (DescBy key) l

/-! ## Retention aggregator (`calculate_retention_rates`) -/

/-- One element of the `retention_data` list. -/
structure RetentionEntry where
  businessCategory : String
  total : ℕ
  won : ℕ
  lost : ℕ
  openCount : ℕ
  closed : ℕ
  retentionRate : ℚ
  totalPremium : ℚ
  wonPremium : ℚ
  lostPremium : ℚ
  premiumRetentionRate : ℚ
deriving DecidableEq, Repr

/-- The body of the `for category in get_core_lines()` loop: the entry
appended for `category`, or `none` when `len(category_data) == 0`. -/
def retentionEntryFor (rows : List Row) (category : String) : Option RetentionEntry :=
  let categoryData := rows.filter fun r => r.businessCategory = category
  if categoryData.length > 0 then
    let totalRenewals := categoryData.length
    let wonRenewals := (categoryData.filter fun r => r.statusCategory = "Won").length
    let lostRenewals := (categoryData.filter fun r => r.statusCategory = "Lost").length
    let openRenewals := (categoryData.filter fun r => r.statusCategory = "Open").length
    let closedRenewals := wonRenewals + lostRenewals
    let retentionRate : ℚ :=
      if closedRenewals > 0 then (wonRenewals : ℚ) / (closedRenewals : ℚ) * 100 else 0
    let wonPremium : ℚ :=
      ((categoryData.filter fun r => r.statusCategory = "Won").map Row.premium).sum
    let lostPremium : ℚ :=
      ((categoryData.filter fun r => r.statusCategory = "Lost").map Row.premium).sum
    let totalPremium : ℚ := (categoryData.map Row.premium).sum
    let premiumRetentionRate : ℚ :=
      if wonPremium + lostPremium > 0 then wonPremium / (wonPremium + lostPremium) * 100 else 0
    some
      { businessCategory := category
        total := totalRenewals
        won := wonRenewals
        lost := lostRenewals
        openCount := openRenewals
        closed := closedRenewals
        retentionRate := retentionRate
        totalPremium := totalPremium
        wonPremium := wonPremium
        lostPremium := lostPremium
        premiumRetentionRate := premiumRetentionRate }
  else none

/-- Models `calculate_retention_rates(df)`: one entry per core line with at least one
matching row, in core-line order. -/
def calculate_retention_rates (rows : List Row) : List RetentionEntry :=
  get_core_lines.filterMap (retentionEntryFor rows)

/-- Models `retention_df = retention_df[retention_df['Closed'] > 0]
       .sort_values('RetentionRate', ascending=False)`. -/
def retention_df (rows : List Row) : List RetentionEntry :=
  sortValuesDesc (fun e => e.retentionRate)
    ((calculate_retention_rates rows).filter fun e => 0 < e.closed)

/-! ## Win-rate comparator (`calculate_win_rates` and the comparison block) -/

/-- Round-half-to-even to an integer, as `numpy`/pandas `round` does. -/
def roundHalfEven (q : ℚ) : ℤ :=
  let f := q.floor
  let frac := q - (f : ℚ)
  if frac < 1 / 2 then f
  else if 1 / 2 < frac then f + 1
  else if f % 2 = 0 then f else f + 1

/-- Models `.round(1)`: round to one decimal place, half to even. -/
def round1 (q : ℚ) : ℚ := (roundHalfEven (q * 10) : ℚ) / 10

/-- The distinct account managers of a row set: the index of the
`groupby('AccountManager')` pivot (a manager appears iff it has a row). -/
def managersOf (rows : List Row) : List String :=
  (rows.map Row.accountManager).dedup

/-- One row of the `am_pivot` frame produced by `calculate_win_rates`. -/
structure WinRateEntry where
  manager : String
  won : ℕ
  lost : ℕ
  openCount : ℕ
  total : ℕ
  winRate : ℚ
deriving DecidableEq, Repr

/-- The `am_pivot` row for one manager: per-outcome counts of the manager's
group, `Total` (the row sum of the pivot, i.e. the group size) and
`Win_Rate = (Won / (Won + Lost) * 100).fillna(0).round(1)`.  The `fillna(0)`
catches exactly the `0/0` of an empty closed count, hence the zero branch. -/
def winRateEntryFor (rows : List Row) (m : String) : WinRateEntry :=
  let grp := rows.filter fun r => r.accountManager = m
  let won := (grp.filter fun r => r.statusCategory = "Won").length
  let lost := (grp.filter fun r => r.statusCategory = "Lost").length
  let openCount := (grp.filter fun r => r.statusCategory = "Open").length
  { manager := m
    won := won
    lost := lost
    openCount := openCount
    total := grp.length
    winRate :=
      if won + lost = 0 then 0
      else round1 ((won : ℚ) / ((won : ℚ) + (lost : ℚ)) * 100) }

/-- Models `calculate_win_rates(dataframe)`: the pivot, one row per distinct
account manager of the input. -/
def calculate_win_rates (rows : List Row) : List WinRateEntry :=
  (managersOf rows).map (winRateEntryFor rows)

/-- Models `df_no_marine = df_filtered[df_filtered['BusinessCategory'] != 'Marine']`. -/
def df_no_marine (rows : List Row) : List Row :=
  rows.filter fun r => r.businessCategory ≠ "Marine"

/-- Models `df_core = df_filtered[df_filtered['CloseDate'].notna()]`. -/
def df_core (rows : List Row) : List Row :=
  rows.filter fun r => r.closeDate.isSome

/-- One element of `comparison_data`. -/
structure ComparisonEntry where
  manager : String
  allLinesWinRate : ℚ
  coreLinesWinRate : ℚ
  difference : ℚ
  allLinesTotal : ℕ
  coreLinesTotal : ℕ
deriving DecidableEq, Repr

/-- The `comparison_data` loop: for each manager common to both pivots, emit
a row when both closed-opportunity counts reach `min_opportunities`. -/
def comparison_data (rows : List Row) (minOpportunities : ℕ) : List ComparisonEntry :=
  let allLinesRates := calculate_win_rates (df_no_marine rows)
  let coreLinesRates := calculate_win_rates (df_core rows)
  let commonManagers :=
    (managersOf (df_no_marine rows)).filter fun m => m ∈ managersOf (df_core rows)
  commonManagers.filterMap fun m =>
    match allLinesRates.find? (fun e => e.manager = m),
          coreLinesRates.find? (fun e => e.manager = m) with
    | some a, some c =>
      if minOpportunities ≤ a.won + a.lost ∧ minOpportunities ≤ c.won + c.lost then
        some
          { manager := m
            allLinesWinRate := a.winRate
            coreLinesWinRate := c.winRate
            difference := c.winRate - a.winRate
            allLinesTotal := a.total
            coreLinesTotal := c.total }
      else none
    | _, _ => none

/-- Models `comparison_df = comparison_df.sort_values('Core_Lines_Win_Rate',
ascending=False)`. -/
def comparison_df (rows : List Row) (minOpportunities : ℕ) : List ComparisonEntry :=
  sortValuesDesc (fun e => e.coreLinesWinRate) (comparison_data rows minOpportunities)

/-! ## Workload allocator (the "Workload Allocation Analysis" section) -/

/-- Models `lambda x: 0.5 if x == 'Flood' else 1.0`, the per-row workload weight. -/
def weightOf (businessCategory : String) : ℚ :=
  if businessCategory = "Flood" then 0.5 else 1.0

/-- The four time-bucket granularities. -/
inductive TimeBucket where
  | day
  | week
  | month
  | quarter
deriving DecidableEq, Repr

/-- The granularity chosen from `date_diff = (end_date - start_date).days`:
the nested `if date_diff <= 31: (if date_diff <= 7 ...) elif date_diff <= 365
... else ...` ladder. -/
def timeBucketOf (dateDiff : ℕ) : TimeBucket :=
  if dateDiff ≤ 31 then
    if dateDiff ≤ 7 then .day else .week
  else if dateDiff ≤ 365 then .month
  else .quarter

/-- Zero-pad a number to two digits, as `strftime` does for `%m`/`%d`/`%U`. -/
def pad2 (n : ℕ) : String :=
  if n < 10 then "0" ++ toString n else toString n

/-- Day of the week with Sunday = 0 (Zeller's congruence), as used by
`strftime`'s `%U` week numbering. -/
def weekdaySunday (d : Date) : ℕ :=
  let ym : ℕ × ℕ := if d.month < 3 then (d.year - 1, d.month + 12) else (d.year, d.month)
  let k := ym.1 % 100
  let j := ym.1 / 100
  (d.day + 13 * (ym.2 + 1) / 5 + k + k / 4 + j / 4 + 5 * j + 6) % 7

/-- Gregorian leap year. -/
def isLeapYear (y : ℕ) : Bool :=
  y % 4 = 0 && (y % 100 ≠ 0 || y % 400 = 0)

/-- Days in each month of year `y` (1-based month). -/
def daysInMonth (y m : ℕ) : ℕ :=
  if m = 2 then (if isLeapYear y then 29 else 28)
  else if m = 4 ∨ m = 6 ∨ m = 9 ∨ m = 11 then 30
  else 31

/-- The 1-based ordinal day of the year. -/
def dayOfYear (d : Date) : ℕ :=
  ((List.range (d.month - 1)).map fun i => daysInMonth d.year (i + 1)).sum + d.day

/-- Models `strftime('%U')`: week of the year (Sunday-first, days before the first
Sunday are week 0). -/
def weekOfYear (d : Date) : ℕ :=
  (dayOfYear d + 6 - weekdaySunday d) / 7

/-- Models `strftime('%Y-%m-%d')`. -/
def fmtDay (d : Date) : String :=
  toString d.year ++ "-" ++ pad2 d.month ++ "-" ++ pad2 d.day

/-- Models `strftime('%Y-W%U')`. -/
def fmtWeek (d : Date) : String :=
  toString d.year ++ "-W" ++ pad2 (weekOfYear d)

/-- Models `strftime('%Y-%m')`. -/
def fmtMonth (d : Date) : String :=
  toString d.year ++ "-" ++ pad2 d.month

/-- Models `dt.to_period('Q').astype(str)` on a real date, e.g. `"2024Q3"`. -/
def fmtQuarter (d : Date) : String :=
  toString d.year ++ "Q" ++ toString ((d.month - 1) / 3 + 1)

/-- The `TimeGroup` column value for one close date.  `strftime` on a missing
date (`NaT`) yields `NaN` (`none` here), and group-by drops such keys; but
`to_period('Q').astype(str)` renders `NaT` as the literal string `"NaT"`,
which is a valid group key. -/
def timeGroupOf (g : TimeBucket) (closeDate : Option Date) : Option String :=
  match g with
  | .day => closeDate.map fmtDay
  | .week => closeDate.map fmtWeek
  | .month => closeDate.map fmtMonth
  | .quarter => some (match closeDate with | none => "NaT" | some d => fmtQuarter d)

/-- The rows of `df_workload` that carry a `TimeGroup` key (pandas group-by
silently drops rows whose key is `NaN`), paired with their key. -/
def keyedRows (g : TimeBucket) (rows : List Row) : List (Row × String) :=
  rows.filterMap fun r => (timeGroupOf g r.closeDate).map fun k => (r, k)

/-- The (manager, time group, category) key of one keyed row. -/
def tripleKeyOf (p : Row × String) : String × String × String :=
  (p.1.accountManager, p.2, p.1.businessCategory)

/-- One row of `workload_summary` after `reset_index()`. -/
structure WorkloadSummaryEntry where
  manager : String
  timeGroup : String
  category : String
  count : ℕ
  weighted : ℚ
deriving DecidableEq, Repr

/-- Models `df_workload.groupby(['AccountManager', 'TimeGroup', 'BusinessCategory'])
.agg({'BusinessCategory': 'count', 'WeightedCount': 'first'})` followed by
`WeightedCount = Count * WeightedCount`.  The `'first'` aggregate is the
weight of the group's first member. -/
def workload_summary (g : TimeBucket) (rows : List Row) : List WorkloadSummaryEntry :=
  ((keyedRows g rows).map tripleKeyOf).dedup.map fun c =>
    let grp := (keyedRows g rows).filter fun p => tripleKeyOf p = c
    let cnt := grp.length
    let w : ℚ := ((grp.head?.map fun p => weightOf p.1.businessCategory).getD 0)
    { manager := c.1
      timeGroup := c.2.1
      category := c.2.2
      count := cnt
      weighted := (cnt : ℚ) * w }

/-- One row of `time_totals`. -/
structure TimeTotalsEntry where
  manager : String
  timeGroup : String
  count : ℕ
  weighted : ℚ
deriving DecidableEq, Repr

/-- Models `workload_summary.groupby(['AccountManager', 'TimeGroup'])
.agg({'Count': 'sum', 'WeightedCount': 'sum'})`. -/
def time_totals (g : TimeBucket) (rows : List Row) : List TimeTotalsEntry :=
  let ws := workload_summary g rows
  (ws.map fun e => (e.manager, e.timeGroup)).dedup.map fun c =>
    let grp := ws.filter fun e => (e.manager, e.timeGroup) = c
    { manager := c.1
      timeGroup := c.2
      count := (grp.map WorkloadSummaryEntry.count).sum
      weighted := (grp.map WorkloadSummaryEntry.weighted).sum }

/-- One row of `am_summary` with its `Workload_Reduction` column. -/
structure AmSummaryEntry where
  manager : String
  count : ℕ
  weighted : ℚ
  reduction : ℚ
deriving DecidableEq, Repr

/-- Models `time_totals.groupby('AccountManager').agg({'Count': 'sum',
'WeightedCount': 'sum'})`, sorted descending by `WeightedCount`, with
`Workload_Reduction = Count - WeightedCount`. -/
def am_summary (g : TimeBucket) (rows : List Row) : List AmSummaryEntry :=
  let tt := time_totals g rows
  sortValuesDesc (fun e => e.weighted)
    ((tt.map TimeTotalsEntry.manager).dedup.map fun m =>
      let grp := tt.filter fun e => e.manager = m
      let cnt := (grp.map TimeTotalsEntry.count).sum
      let w := (grp.map TimeTotalsEntry.weighted).sum
      { manager := m
        count := cnt
        weighted := w
        reduction := (cnt : ℚ) - w })

/-- The whole workload pipeline, from the report's day span. -/
def workloadReport (dateDiff : ℕ) (rows : List Row) : List AmSummaryEntry :=
  am_summary (timeBucketOf dateDiff) rows

/-! ## General helper lemmas -/

/-- A successful association-list lookup returns one of the stored values. -/
theorem lookup_mem_values {l : List (String × String)} {a b : String}
    (h : l.lookup a = some b) : b ∈ l.map Prod.snd := by
  induction l with
  | nil => simp [List.lookup] at h
  | cons p t ih =>
    obtain ⟨k, v⟩ := p
    by_cases hk : a == k
    · simp only [List.lookup, hk] at h
      cases h
      exact List.mem_cons_self _ _
    · simp only [List.lookup, hk] at h
      exact List.mem_cons_of_mem _ (ih h)

/-- Two nested filters collapse to one filter on the conjunction. -/
theorem filter_filter_and {α : Type} (p q : α → Prop) [DecidablePred p] [DecidablePred q]
    (l : List α) :
    (l.filter fun a => p a).filter (fun a => q a) = l.filter fun a => p a ∧ q a := by
  induction l with
  | nil => rfl
  | cons x t ih =>
    by_cases hp : p x <;> by_cases hq : q x <;>
      simp [List.filter_cons, hp, hq, ih]

/-- Summing a pointwise sum splits into two sums. -/
theorem sum_map_add {α M : Type} [AddCommMonoid M] (l : List α) (f g : α → M) :
    (l.map fun x => f x + g x).sum = (l.map f).sum + (l.map g).sum := by
  induction l with
  | nil => simp
  | cons x t ih =>
    rw [List.map_cons, List.sum_cons, List.map_cons, List.sum_cons, List.map_cons,
      List.sum_cons, ih]
    exact add_add_add_comm _ _ _ _

/-- Over a duplicate-free key list containing `a`, a sum of indicator values
collapses to the single value at `a`. -/
theorem sum_map_ite_eq {κ M : Type} [DecidableEq κ] [AddCommMonoid M]
    (keys : List κ) (hnd : keys.Nodup) (a : κ) (ha : a ∈ keys) (v : M) :
    (keys.map fun c => if a = c then v else 0).sum = v := by
  induction keys with
  | nil => cases ha
  | cons k t ih =>
    rw [List.map_cons, List.sum_cons]
    rcases List.mem_cons.mp ha with h | h
    · subst h
      rw [if_pos rfl]
      have hz : (t.map fun c => if a = c then v else 0).sum = 0 := by
        apply List.sum_eq_zero
        intro x hx
        obtain ⟨c, hc, rfl⟩ := List.mem_map.mp hx
        exact if_neg fun he => (List.nodup_cons.mp hnd).1 (by rw [he]; exact hc)
      rw [hz, add_zero]
    · have hk : ¬ a = k := fun he => (List.nodup_cons.mp hnd).1 (by rw [← he]; exact h)
      rw [if_neg hk, ih (List.nodup_cons.mp hnd).2 h, zero_add]

/-- Summing each group of a group-by over a duplicate-free covering key list
recovers the total sum. -/
theorem sum_groupSum {α κ M : Type} [DecidableEq κ] [AddCommMonoid M]
    (keys : List κ) (k : α → κ) (f : α → M)
    (hnd : keys.Nodup) (l : List α) (hcov : ∀ x ∈ l, k x ∈ keys) :
    (keys.map fun c => ((l.filter fun x => k x = c).map f).sum).sum = (l.map f).sum := by
  induction l with
  | nil => simp
  | cons x t ih =>
    have hx : k x ∈ keys := hcov x (List.mem_cons_self _ _)
    have hcov2 : ∀ y ∈ t, k y ∈ keys := fun y hy => hcov y (List.mem_cons_of_mem _ hy)
    have hsplit : ∀ c : κ,
        (((x :: t).filter fun y => k y = c).map f).sum
          = (if k x = c then f x else 0) + ((t.filter fun y => k y = c).map f).sum := by
      intro c
      by_cases h : k x = c
      · simp [List.filter_cons, h]
      · simp [List.filter_cons, h]
    simp only [hsplit]
    rw [sum_map_add, sum_map_ite_eq keys hnd (k x) hx, ih hcov2, List.map_cons,
      List.sum_cons]

/-- The group-by sum restricted to keys satisfying `P` equals the sum over the
elements whose key satisfies `P`. -/
theorem sum_groupSum_filter {α κ M : Type} [DecidableEq κ] [AddCommMonoid M]
    (k : α → κ) (f : α → M) (P : κ → Prop) [DecidablePred P] (l : List α) :
    ((((l.map k).dedup).filter fun c => P c).map
        fun c => ((l.filter fun x => k x = c).map f).sum).sum
      = ((l.filter fun x => P (k x)).map f).sum := by
  have hgrp : ∀ c ∈ ((l.map k).dedup).filter fun c => P c,
      ((l.filter fun x => k x = c).map f).sum
        = (((l.filter fun x => P (k x)).filter fun x => k x = c).map f).sum := by
    intro c hc
    have hPc : P c := of_decide_eq_true (List.mem_filter.mp hc).2
    have heq : (l.filter fun x => k x = c) = l.filter fun x => P (k x) ∧ k x = c := by
      apply List.filter_congr
      intro x _
      by_cases hkx : k x = c
      · have hPx : P (k x) := by rw [hkx]; exact hPc
        simp [hkx, hPx, hPc]
      · simp [hkx]
    rw [heq, ← filter_filter_and]
  rw [List.map_congr_left hgrp]
  apply sum_groupSum _ _ _ ((l.map k).nodup_dedup.filter _)
  intro x hx
  have hx2 := List.mem_filter.mp hx
  refine List.mem_filter.mpr ⟨List.mem_dedup.mpr (List.mem_map_of_mem _ hx2.1), hx2.2⟩

/-- Mapping the constant `1` and summing gives the length. -/
theorem sum_map_one {α : Type} (l : List α) : (l.map fun _ => (1 : ℕ)).sum = l.length := by
  induction l with
  | nil => rfl
  | cons x t ih => simp [ih, Nat.add_comm]

/-- A sum of a function that is constant on the list. -/
theorem sum_map_const_rat {α : Type} {l : List α} {f : α → ℚ} {v : ℚ}
    (h : ∀ x ∈ l, f x = v) : (l.map f).sum = (l.length : ℚ) * v := by
  induction l with
  | nil => simp
  | cons x t ih =>
    rw [List.map_cons, List.sum_cons, ih (fun y hy => h y (List.mem_cons_of_mem _ hy)),
      h x (List.mem_cons_self _ _), List.length_cons]
    push_cast
    ring

/-! ## Characterisation of the retention aggregator -/

/-- What a produced retention entry contains: the counts, premium sums and
rates of its category, computed over the input rows. -/
theorem retentionEntryFor_eq_some {rows : List Row} {c : String} {e : RetentionEntry}
    (h : retentionEntryFor rows c = some e) :
    e.businessCategory = c ∧
    e.total = (rows.filter fun r => r.businessCategory = c).length ∧
    e.won = ((rows.filter fun r => r.businessCategory = c).filter
      fun r => r.statusCategory = "Won").length ∧
    e.lost = ((rows.filter fun r => r.businessCategory = c).filter
      fun r => r.statusCategory = "Lost").length ∧
    e.openCount = ((rows.filter fun r => r.businessCategory = c).filter
      fun r => r.statusCategory = "Open").length ∧
    e.closed = e.won + e.lost ∧
    e.retentionRate = (if 0 < e.closed then (e.won : ℚ) / (e.closed : ℚ) * 100 else 0) ∧
    e.wonPremium = (((rows.filter fun r => r.businessCategory = c).filter
      fun r => r.statusCategory = "Won").map Row.premium).sum ∧
    e.lostPremium = (((rows.filter fun r => r.businessCategory = c).filter
      fun r => r.statusCategory = "Lost").map Row.premium).sum ∧
    e.totalPremium = ((rows.filter fun r => r.businessCategory = c).map Row.premium).sum ∧
    e.premiumRetentionRate =
      (if 0 < e.wonPremium + e.lostPremium
        then e.wonPremium / (e.wonPremium + e.lostPremium) * 100 else 0) := by
  simp only [retentionEntryFor] at h
  split at h
  · cases h
    exact ⟨rfl, rfl, rfl, rfl, rfl, rfl, rfl, rfl, rfl, rfl, rfl⟩
  · cases h

/-- A category with at least one matching row produces an entry. -/
theorem retentionEntryFor_isSome {rows : List Row} {c : String}
    (h : 0 < (rows.filter fun r => r.businessCategory = c).length) :
    ∃ e, retentionEntryFor rows c = some e :=
  ⟨_, by simp only [retentionEntryFor]; rw [if_pos h]⟩

/-- Membership in the retention aggregator's output, unfolded. -/
theorem mem_calculate_retention_rates {rows : List Row} {e : RetentionEntry} :
    e ∈ calculate_retention_rates rows ↔
      ∃ c ∈ get_core_lines, retentionEntryFor rows c = some e := by
  simp [calculate_retention_rates, List.mem_filterMap]

/-! ## The claims about classification and retention -/

/-- C6: the classifier is total and exact-matching: every stage string maps
into `{Open, Won, Lost, Unknown}` and any stage missing from the fixed stage
table maps to `Unknown`; every business-type string maps into the fixed
closed category set and any type missing from the type table maps to
`"Other"`. -/
theorem classifier_total_exact (s t : String) :
    stageCategoryOf s ∈ outcomeCategories ∧
    (get_stage_metadata.lookup s = none → stageCategoryOf s = "Unknown") ∧
    businessCategoryOf t ∈ businessCategories ∧
    (get_business_type_categories.lookup t = none → businessCategoryOf t = "Other") := by
  refine ⟨?_, ?_, ?_, ?_⟩
  · cases h : get_stage_metadata.lookup s with
    | none => simp [stageCategoryOf, h, outcomeCategories]
    | some v =>
      have hv := lookup_mem_values h
      have hsub : ∀ x ∈ get_stage_metadata.map Prod.snd, x ∈ outcomeCategories := by decide
      simpa [stageCategoryOf, h] using hsub v hv
  · intro h
    simp [stageCategoryOf, h]
  · cases h : get_business_type_categories.lookup t with
    | none => simp [businessCategoryOf, h, businessCategories]
    | some v =>
      have hv := lookup_mem_values h
      have hsub : ∀ x ∈ get_business_type_categories.map Prod.snd, x ∈ businessCategories := by
        decide
      simpa [businessCategoryOf, h] using hsub v hv
  · intro h
    simp [businessCategoryOf, h]

/-- Witness for C6 at concrete unmatched inputs: lookups are exact, so the
case-mangled strings fall through to the fallback categories. -/
theorem classifier_total_exact_witness :
    stageCategoryOf "closed won" = "Unknown" ∧ businessCategoryOf "flood - pl" = "Other" :=
  ⟨(classifier_total_exact "closed won" "flood - pl").2.1 (by decide),
   (classifier_total_exact "closed won" "flood - pl").2.2.2 (by decide)⟩

/-- C10: every category in the retention aggregator's output is one of the
eight core lines; in particular rows classified `"Life"` or `"Other"` can
never appear in the retention report. -/
theorem retention_categories_in_core_lines (rows : List Row) (e : RetentionEntry)
    (he : e ∈ calculate_retention_rates rows) :
    e.businessCategory ∈ get_core_lines ∧
    e.businessCategory ≠ "Life" ∧ e.businessCategory ≠ "Other" := by
  obtain ⟨c, hc, hsome⟩ := mem_calculate_retention_rates.mp he
  have hb := (retentionEntryFor_eq_some hsome).1
  have hno : ∀ x ∈ get_core_lines, x ≠ "Life" ∧ x ≠ "Other" := by decide
  rw [hb]
  exact ⟨hc, (hno c hc).1, (hno c hc).2⟩

/-- A sample won row ("Auto", manager Alice, premium 1000). -/
def sampleWonRow : Row :=
  { stageName := "Closed Won", statusCategory := "Won",
    renewalType := "Personal Lines - Renewal", businessType := "Personal Auto",
    businessCategory := "Auto", accountManager := "Alice",
    closeDate := some ⟨2024, 3, 15⟩, accountName := "Acme", premium := 1000 }

/-- A sample lost row ("Auto", manager Alice, premium 500). -/
def sampleLostRow : Row :=
  { sampleWonRow with stageName := "Closed Lost", statusCategory := "Lost", premium := 500 }

/-- A two-row sample input for the retention aggregator. -/
def sampleRetentionRows : List Row := [sampleWonRow, sampleLostRow]

/-- The retention entry the aggregator produces on `sampleRetentionRows`. -/
def sampleRetentionEntry : RetentionEntry :=
  { businessCategory := "Auto", total := 2, won := 1, lost := 1, openCount := 0,
    closed := 2, retentionRate := 50, totalPremium := 1500, wonPremium := 1000,
    lostPremium := 500, premiumRetentionRate := 200 / 3 }

/-- Evaluation fact: the sample rows produce exactly the sample entry. -/
theorem sampleRetentionEntry_mem :
    sampleRetentionEntry ∈ calculate_retention_rates sampleRetentionRows := by
  simp +decide [calculate_retention_rates, get_core_lines, retentionEntryFor,
    sampleRetentionRows, sampleWonRow, sampleLostRow, sampleRetentionEntry]
  norm_num

/-- Witness for C10 on a concrete aggregator run. -/
theorem retention_categories_in_core_lines_witness :
    sampleRetentionEntry.businessCategory ∈ get_core_lines ∧
    sampleRetentionEntry.businessCategory ≠ "Life" ∧
    sampleRetentionEntry.businessCategory ≠ "Other" :=
  retention_categories_in_core_lines sampleRetentionRows sampleRetentionEntry
    sampleRetentionEntry_mem

/-- C1: in every retention entry, `retention_rate = won / closed * 100` when
`closed > 0` and exactly `0` when `closed = 0`, and it lies in `[0, 100]`;
likewise `premium_retention_rate = won_premium / (won_premium + lost_premium)
* 100` when the denominator is positive and exactly `0` otherwise, and (for
non-negative row premiums) it lies in `[0, 100]`. -/
theorem retention_rate_formula (rows : List Row)
    (hprem : ∀ r ∈ rows, 0 ≤ r.premium) (e : RetentionEntry)
    (he : e ∈ calculate_retention_rates rows) :
    (0 < e.closed → e.retentionRate = (e.won : ℚ) / (e.closed : ℚ) * 100) ∧
    (e.closed = 0 → e.retentionRate = 0) ∧
    0 ≤ e.retentionRate ∧ e.retentionRate ≤ 100 ∧
    (0 < e.wonPremium + e.lostPremium →
      e.premiumRetentionRate = e.wonPremium / (e.wonPremium + e.lostPremium) * 100) ∧
    (¬ 0 < e.wonPremium + e.lostPremium → e.premiumRetentionRate = 0) ∧
    0 ≤ e.premiumRetentionRate ∧ e.premiumRetentionRate ≤ 100 := by
  obtain ⟨c, hc, hsome⟩ := mem_calculate_retention_rates.mp he
  obtain ⟨hbc, htotal, hwon, hlost, hopen, hclosed, hrate, hwonP, hlostP, htotP, hprate⟩ :=
    retentionEntryFor_eq_some hsome
  have hwonle : e.won ≤ e.closed := by omega
  have hwonPnn : 0 ≤ e.wonPremium := by
    rw [hwonP]
    apply List.sum_nonneg
    intro x hx
    obtain ⟨r, hr, rfl⟩ := List.mem_map.mp hx
    exact hprem r (List.mem_of_mem_filter (List.mem_of_mem_filter hr))
  have hlostPnn : 0 ≤ e.lostPremium := by
    rw [hlostP]
    apply List.sum_nonneg
    intro x hx
    obtain ⟨r, hr, rfl⟩ := List.mem_map.mp hx
    exact hprem r (List.mem_of_mem_filter (List.mem_of_mem_filter hr))
  refine ⟨?_, ?_, ?_, ?_, ?_, ?_, ?_, ?_⟩
  · intro h
    rw [hrate, if_pos h]
  · intro h
    rw [hrate, if_neg (by omega)]
  · rw [hrate]
    split
    · positivity
    · exact le_refl 0
  · rw [hrate]
    split
    · rename_i h
      have hcpos : (0 : ℚ) < (e.closed : ℚ) := by exact_mod_cast h
      have h1 : (e.won : ℚ) / (e.closed : ℚ) ≤ 1 := by
        rw [div_le_one hcpos]
        exact_mod_cast hwonle
      have := mul_le_mul_of_nonneg_right h1 (show (0 : ℚ) ≤ 100 by norm_num)
      simpa using this
    · norm_num
  · intro h
    rw [hprate, if_pos h]
  · intro h
    rw [hprate, if_neg h]
  · rw [hprate]
    split
    · rename_i h
      exact mul_nonneg (div_nonneg hwonPnn (le_of_lt h)) (by norm_num)
    · exact le_refl 0
  · rw [hprate]
    split
    · rename_i h
      have h1 : e.wonPremium / (e.wonPremium + e.lostPremium) ≤ 1 := by
        rw [div_le_one h]
        linarith
      have := mul_le_mul_of_nonneg_right h1 (show (0 : ℚ) ≤ 100 by norm_num)
      simpa using this
    · norm_num

/-- Witness for C1 on a concrete aggregator run (one won, one lost Auto row). -/
theorem retention_rate_formula_witness :
    (0 < sampleRetentionEntry.closed →
      sampleRetentionEntry.retentionRate =
        (sampleRetentionEntry.won : ℚ) / (sampleRetentionEntry.closed : ℚ) * 100) ∧
    (sampleRetentionEntry.closed = 0 → sampleRetentionEntry.retentionRate = 0) ∧
    0 ≤ sampleRetentionEntry.retentionRate ∧ sampleRetentionEntry.retentionRate ≤ 100 ∧
    (0 < sampleRetentionEntry.wonPremium + sampleRetentionEntry.lostPremium →
      sampleRetentionEntry.premiumRetentionRate =
        sampleRetentionEntry.wonPremium /
          (sampleRetentionEntry.wonPremium + sampleRetentionEntry.lostPremium) * 100) ∧
    (¬ 0 < sampleRetentionEntry.wonPremium + sampleRetentionEntry.lostPremium →
      sampleRetentionEntry.premiumRetentionRate = 0) ∧
    0 ≤ sampleRetentionEntry.premiumRetentionRate ∧
    sampleRetentionEntry.premiumRetentionRate ≤ 100 :=
  retention_rate_formula sampleRetentionRows
    (by norm_num [sampleRetentionRows, sampleWonRow, sampleLostRow])
    sampleRetentionEntry sampleRetentionEntry_mem

/-! ## The time-bucket and error-handling claims -/

/-- Modelled from the spec: the span table of §4.4 — span ≤ 7 days yields
daily buckets, 8–31 weekly, 32–365 monthly, and over 365 quarterly. Used
only as the spec-side definition to compare `timeBucketOf` against. -/
def specTimeBucket (dateDiff : ℕ) : TimeBucket :=
  if dateDiff ≤ 7 then .day
  else if dateDiff ≤ 31 then .week
  else if dateDiff ≤ 365 then .month
  else .quarter

/-- C5: bucket granularity is a pure function of the day span and follows
the spec's table; in particular a 10-day span yields weeks and a 200-day
span yields months. -/
theorem time_bucket_pure_function_of_span :
    (∀ dateDiff : ℕ, timeBucketOf dateDiff = specTimeBucket dateDiff) ∧
    timeBucketOf 10 = TimeBucket.week ∧ timeBucketOf 200 = TimeBucket.month := by
  refine ⟨fun d => ?_, rfl, rfl⟩
  unfold timeBucketOf specTimeBucket
  split_ifs <;> first | rfl | omega

/-- C9: a failed fetch produces an empty row set (never a partial one), and
the dashboard renders its no-data state from that empty set. -/
theorem fetch_failure_yields_empty (msg : String) :
    connect_to_salesforce (FetchOutcome.failure msg) = [] ∧
    renderDashboard (connect_to_salesforce (FetchOutcome.failure msg)) =
      DashboardState.noData :=
  ⟨rfl, rfl⟩

/-! ## The retention-report claim -/

/-- The closed-opportunity count of a category over a row set. -/
def closedCountOf (rows : List Row) (c : String) : ℕ :=
  (rows.filter fun r => r.businessCategory = c ∧ r.statusCategory = "Won").length +
  (rows.filter fun r => r.businessCategory = c ∧ r.statusCategory = "Lost").length

/-- A produced entry's `closed` field is its category's closed count. -/
theorem closed_eq_closedCountOf {rows : List Row} {c : String} {e : RetentionEntry}
    (h : retentionEntryFor rows c = some e) : e.closed = closedCountOf rows c := by
  obtain ⟨hbc, htl, hwon, hlost, hopen, hclosed, hrate, hwp, hlp, htp, hpr⟩ :=
    retentionEntryFor_eq_some h
  rw [hclosed, hwon, hlost, closedCountOf, filter_filter_and, filter_filter_and]

/-- C7: under the pipeline's precondition that every row is classified into a
core line, the retention report contains a row for a category exactly when
that category has a positive closed count (categories with zero closed
opportunities are dropped, open rows notwithstanding), and the report is
ordered descending by retention rate. -/
theorem retention_report_categories (rows : List Row)
    (hcore : ∀ r ∈ rows, r.businessCategory ∈ get_core_lines) :
    (∀ c : String,
      (∃ e ∈ retention_df rows, e.businessCategory = c) ↔ 0 < closedCountOf rows c) ∧
    (retention_df rows).Sorted (DescBy fun e => e.retentionRate) := by
  constructor
  · intro c
    constructor
    · rintro ⟨e, he, rfl⟩
      simp only [retention_df, sortValuesDesc, List.mem_insertionSort] at he
      obtain ⟨hmem, hcl⟩ := List.mem_filter.mp he
      obtain ⟨c0, hc0, hsome⟩ := mem_calculate_retention_rates.mp hmem
      have hb := (retentionEntryFor_eq_some hsome).1
      rw [hb, ← closed_eq_closedCountOf hsome]
      exact of_decide_eq_true hcl
    · intro hpos
      have hsplit : 0 < (rows.filter fun r =>
            r.businessCategory = c ∧ r.statusCategory = "Won").length ∨
          0 < (rows.filter fun r =>
            r.businessCategory = c ∧ r.statusCategory = "Lost").length := by
        rw [closedCountOf] at hpos
        omega
      have hrow : ∃ r ∈ rows, r.businessCategory = c := by
        rcases hsplit with h | h
        · obtain ⟨r, hr⟩ := List.exists_mem_of_length_pos h
          obtain ⟨hr1, hr2⟩ := List.mem_filter.mp hr
          exact ⟨r, hr1, (of_decide_eq_true hr2).1⟩
        · obtain ⟨r, hr⟩ := List.exists_mem_of_length_pos h
          obtain ⟨hr1, hr2⟩ := List.mem_filter.mp hr
          exact ⟨r, hr1, (of_decide_eq_true hr2).1⟩
      obtain ⟨r, hrrows, hrcat⟩ := hrow
      have hccore : c ∈ get_core_lines := by
        rw [← hrcat]
        exact hcore r hrrows
      have hlen : 0 < (rows.filter fun x => x.businessCategory = c).length :=
        List.length_pos_of_mem
          (List.mem_filter.mpr ⟨hrrows, decide_eq_true hrcat⟩)
      obtain ⟨e, hsome⟩ := retentionEntryFor_isSome hlen
      have hcl : e.closed = closedCountOf rows c := closed_eq_closedCountOf hsome
      have hmem : e ∈ calculate_retention_rates rows :=
        mem_calculate_retention_rates.mpr ⟨c, hccore, hsome⟩
      refine ⟨e, ?_, (retentionEntryFor_eq_some hsome).1⟩
      simp only [retention_df, sortValuesDesc, List.mem_insertionSort]
      exact List.mem_filter.mpr ⟨hmem, decide_eq_true (by rw [hcl]; exact hpos)⟩
  · simp only [retention_df, sortValuesDesc]
    exact List.sorted_insertionSort _ _

/-- Witness for C7 on a concrete run: the two-row Auto sample. -/
theorem retention_report_categories_witness :
    ((∃ e ∈ retention_df sampleRetentionRows, e.businessCategory = "Auto") ↔
      0 < closedCountOf sampleRetentionRows "Auto") ∧
    (retention_df sampleRetentionRows).Sorted (DescBy fun e => e.retentionRate) := by
  have h := retention_report_categories sampleRetentionRows (by decide)
  exact ⟨h.1 "Auto", h.2⟩

/-! ## Characterisation of the win-rate pivot -/

/-- Single-filter form of a manager's per-outcome row count. -/
def countManagerStatus (rows : List Row) (m s : String) : ℕ :=
  (rows.filter fun r => r.accountManager = m ∧ r.statusCategory = s).length

/-- The pivot row's counts equal the single-filter counts. -/
theorem winRateEntryFor_counts (rows : List Row) (m : String) :
    (winRateEntryFor rows m).manager = m ∧
    (winRateEntryFor rows m).won = countManagerStatus rows m "Won" ∧
    (winRateEntryFor rows m).lost = countManagerStatus rows m "Lost" ∧
    (winRateEntryFor rows m).openCount = countManagerStatus rows m "Open" ∧
    (winRateEntryFor rows m).total = (rows.filter fun r => r.accountManager = m).length := by
  refine ⟨rfl, ?_, ?_, ?_, rfl⟩ <;>
    · simp only [winRateEntryFor, countManagerStatus]
      rw [filter_filter_and]

/-- The pivot row's `Win_Rate` value: zero on an empty closed count,
otherwise the rounded percentage. -/
theorem winRateEntryFor_rate (rows : List Row) (m : String) :
    ((winRateEntryFor rows m).won + (winRateEntryFor rows m).lost = 0 →
      (winRateEntryFor rows m).winRate = 0) ∧
    (0 < (winRateEntryFor rows m).won + (winRateEntryFor rows m).lost →
      (winRateEntryFor rows m).winRate =
        round1 (((winRateEntryFor rows m).won : ℚ) /
          (((winRateEntryFor rows m).won : ℚ) + ((winRateEntryFor rows m).lost : ℚ)) * 100)) := by
  constructor <;> intro h <;> simp only [winRateEntryFor] at h ⊢
  · rw [if_pos h]
  · rw [if_neg (by omega)]

/-- Looking a manager up in the pivot by its index finds that manager's row. -/
theorem find?_calculate_win_rates (rows : List Row) (m : String)
    (hm : m ∈ managersOf rows) :
    (calculate_win_rates rows).find? (fun e => e.manager = m) =
      some (winRateEntryFor rows m) := by
  unfold calculate_win_rates
  generalize managersOf rows = L at hm
  induction L with
  | nil => cases hm
  | cons a t ih =>
    by_cases ha : a = m
    · subst ha
      have hp : (decide ((winRateEntryFor rows a).manager = a)) = true :=
        decide_eq_true rfl
      simp [List.find?, hp]
    · have hp : (decide ((winRateEntryFor rows a).manager = m)) = false :=
        decide_eq_false ha
      rw [List.map_cons, List.find?]
      rw [hp]
      exact ih ((List.mem_cons.mp hm).resolve_left fun he => ha he.symm)

/-! ## The win-rate computation claim -/

/-- Evaluation of the round-half-even function when the fraction is below
one half. -/
theorem roundHalfEven_eval_low (q : ℚ) (z : ℤ) (hz : (z : ℚ) ≤ q) (hz2 : q < z + 1)
    (hfrac : q - z < 1 / 2) : roundHalfEven q = z := by
  have hfl : q.floor = z := by
    show ⌊q⌋ = z
    rw [Int.floor_eq_iff]
    exact ⟨hz, hz2⟩
  unfold roundHalfEven
  rw [hfl, if_pos hfrac]

/-- The key numeric fact behind the rounding counterexample:
`round1 (1 / 3 * 100) = 33.3`. -/
theorem round1_one_third : round1 ((1 : ℚ) / ((1 : ℚ) + (2 : ℚ)) * 100) = 333 / 10 := by
  have h : ((1 : ℚ) / ((1 : ℚ) + (2 : ℚ)) * 100) * 10 = 1000 / 3 := by norm_num
  unfold round1
  rw [h, roundHalfEven_eval_low (1000 / 3) 333 (by norm_num) (by norm_num) (by norm_num)]
  norm_num

/-- A three-row input for one manager: one won, two lost. -/
def sampleWinRows : List Row :=
  [sampleWonRow, sampleLostRow, { sampleLostRow with accountName := "Bright" }]

/-- Counterexample to C2 as stated: with one won and two lost rows the pivot
emits `Win_Rate = 33.3` (the `.round(1)` of the percentage), which differs
from the claimed exact value `won / (won + lost) * 100 = 100/3`. -/
theorem win_rate_not_exact_counterexample :
    calculate_win_rates sampleWinRows =
      [{ manager := "Alice", won := 1, lost := 2, openCount := 0, total := 3,
         winRate := 333 / 10 }] ∧
    (333 / 10 : ℚ) ≠ (1 : ℚ) / ((1 : ℚ) + (2 : ℚ)) * 100 := by
  constructor
  · simp +decide [calculate_win_rates, managersOf, winRateEntryFor, sampleWinRows,
      sampleWonRow, sampleLostRow]
    have h2 : ((1 : ℚ) + 2)⁻¹ * 100 = (1 : ℚ) / ((1 : ℚ) + (2 : ℚ)) * 100 := by norm_num
    rw [h2, round1_one_third]
  · norm_num

/-- C2 (amended): the per-manager win-rate computation groups rows by
manager, counts rows per outcome category, and yields
`win_rate = round-to-one-decimal (won / (won + lost) * 100)` — the code's
`.round(1)` of the claimed percentage — and yields exactly `0` (not an
error, NaN or infinity) when `won + lost = 0`. -/
theorem win_rate_grouped (rows : List Row) (m : String) (hm : m ∈ managersOf rows) :
    ∃ e ∈ calculate_win_rates rows, e.manager = m ∧
      e.won = countManagerStatus rows m "Won" ∧
      e.lost = countManagerStatus rows m "Lost" ∧
      e.openCount = countManagerStatus rows m "Open" ∧
      e.total = (rows.filter fun r => r.accountManager = m).length ∧
      (e.won + e.lost = 0 → e.winRate = 0) ∧
      (0 < e.won + e.lost →
        e.winRate = round1 ((e.won : ℚ) / ((e.won : ℚ) + (e.lost : ℚ)) * 100)) := by
  obtain ⟨hmgr, hwon, hlost, hopen, htotal⟩ := winRateEntryFor_counts rows m
  obtain ⟨hz, hp⟩ := winRateEntryFor_rate rows m
  exact ⟨winRateEntryFor rows m, List.mem_map_of_mem _ hm,
    hmgr, hwon, hlost, hopen, htotal, hz, hp⟩

/-- Witness for the amended C2 on the one-won-two-lost sample. -/
theorem win_rate_grouped_witness :
    ∃ e ∈ calculate_win_rates sampleWinRows, e.manager = "Alice" ∧
      e.won = countManagerStatus sampleWinRows "Alice" "Won" ∧
      e.lost = countManagerStatus sampleWinRows "Alice" "Lost" ∧
      e.openCount = countManagerStatus sampleWinRows "Alice" "Open" ∧
      e.total = (sampleWinRows.filter fun r => r.accountManager = "Alice").length ∧
      (e.won + e.lost = 0 → e.winRate = 0) ∧
      (0 < e.won + e.lost →
        e.winRate = round1 ((e.won : ℚ) / ((e.won : ℚ) + (e.lost : ℚ)) * 100)) :=
  win_rate_grouped sampleWinRows "Alice" (by decide)

/-! ## The win-rate comparison claim -/

/-- The closed-opportunity count of a manager over a row set, as read off the
pivot (`Won + Lost`). -/
def closedForIn (rows : List Row) (m : String) : ℕ :=
  countManagerStatus rows m "Won" + countManagerStatus rows m "Lost"

/-- The pivot row's closed count is the manager's closed count. -/
theorem winRateEntryFor_closed (rows : List Row) (m : String) :
    (winRateEntryFor rows m).won + (winRateEntryFor rows m).lost = closedForIn rows m := by
  obtain ⟨_, hw, hl, _, _⟩ := winRateEntryFor_counts rows m
  rw [hw, hl, closedForIn]

/-- The comparison row emitted for a manager present in both pivots. -/
def comparisonEntryFor (rows : List Row) (m : String) : ComparisonEntry :=
  let a := winRateEntryFor (df_no_marine rows) m
  let c := winRateEntryFor (df_core rows) m
  { manager := m
    allLinesWinRate := a.winRate
    coreLinesWinRate := c.winRate
    difference := c.winRate - a.winRate
    allLinesTotal := a.total
    coreLinesTotal := c.total }

/-- Membership in `comparison_data`, characterised. -/
theorem comparison_data_mem_iff (rows : List Row) (minOpp : ℕ) (e : ComparisonEntry) :
    e ∈ comparison_data rows minOpp ↔
      ∃ m, m ∈ managersOf (df_no_marine rows) ∧ m ∈ managersOf (df_core rows) ∧
        minOpp ≤ closedForIn (df_no_marine rows) m ∧
        minOpp ≤ closedForIn (df_core rows) m ∧
        e = comparisonEntryFor rows m := by
  simp only [comparison_data, List.mem_filterMap]
  constructor
  · rintro ⟨m, hmem, hf⟩
    obtain ⟨hA, hC0⟩ := List.mem_filter.mp hmem
    have hC : m ∈ managersOf (df_core rows) := of_decide_eq_true hC0
    rw [find?_calculate_win_rates _ _ hA, find?_calculate_win_rates _ _ hC] at hf
    simp only [] at hf
    split at hf
    · rename_i hcond
      obtain ⟨h1, h2⟩ := hcond
      rw [winRateEntryFor_closed] at h1 h2
      cases hf
      exact ⟨m, hA, hC, h1, h2, rfl⟩
    · cases hf
  · rintro ⟨m, hA, hC, h1, h2, rfl⟩
    refine ⟨m, List.mem_filter.mpr ⟨hA, decide_eq_true hC⟩, ?_⟩
    rw [find?_calculate_win_rates _ _ hA, find?_calculate_win_rates _ _ hC]
    simp only []
    rw [if_pos ⟨by rw [winRateEntryFor_closed]; exact h1,
      by rw [winRateEntryFor_closed]; exact h2⟩]
    rfl

/-- C3: the comparison emits a row for a manager exactly when the manager
appears in both scopes' grouped results and meets the minimum closed count in
both scopes; every emitted row carries the signed difference (narrow minus
broad), and the output is ordered descending by narrow-scope win rate. -/
theorem comparison_emits_iff (rows : List Row) (minOpp : ℕ) (m : String) :
    ((∃ e ∈ comparison_df rows minOpp, e.manager = m) ↔
      (m ∈ managersOf (df_no_marine rows) ∧ m ∈ managersOf (df_core rows) ∧
        minOpp ≤ closedForIn (df_no_marine rows) m ∧
        minOpp ≤ closedForIn (df_core rows) m)) ∧
    (∀ e ∈ comparison_df rows minOpp,
      e.difference = e.coreLinesWinRate - e.allLinesWinRate) ∧
    (comparison_df rows minOpp).Sorted (DescBy fun e => e.coreLinesWinRate) := by
  refine ⟨⟨?_, ?_⟩, ?_, ?_⟩
  · rintro ⟨e, he, rfl⟩
    simp only [comparison_df, sortValuesDesc, List.mem_insertionSort] at he
    obtain ⟨m, hA, hC, h1, h2, rfl⟩ := (comparison_data_mem_iff rows minOpp e).mp he
    exact ⟨hA, hC, h1, h2⟩
  · rintro ⟨hA, hC, h1, h2⟩
    refine ⟨comparisonEntryFor rows m, ?_, rfl⟩
    simp only [comparison_df, sortValuesDesc, List.mem_insertionSort]
    exact (comparison_data_mem_iff rows minOpp _).mpr ⟨m, hA, hC, h1, h2, rfl⟩
  · intro e he
    simp only [comparison_df, sortValuesDesc, List.mem_insertionSort] at he
    obtain ⟨m, _, _, _, _, rfl⟩ := (comparison_data_mem_iff rows minOpp e).mp he
    rfl
  · simp only [comparison_df, sortValuesDesc]
    exact List.sorted_insertionSort _ _

/-- Witness for C3: on the two-row sample with threshold 1, Alice is emitted
(present and above threshold in both scopes) and the output is sorted. -/
theorem comparison_emits_iff_witness :
    (∃ e ∈ comparison_df sampleRetentionRows 1, e.manager = "Alice") ∧
    (comparison_df sampleRetentionRows 1).Sorted (DescBy fun e => e.coreLinesWinRate) :=
  ⟨((comparison_emits_iff sampleRetentionRows 1 "Alice").1).mpr
      ⟨by decide, by decide, by decide, by decide⟩,
    (comparison_emits_iff sampleRetentionRows 1 "Alice").2.2⟩

/-! ## Generic lemmas for chained group-bys -/

/-- Summing a projection over per-key built entries recovers the element sum,
whenever the projection of each built entry is its group's sum. -/
theorem sum_proj_built_all {α κ M β : Type} [DecidableEq κ] [AddCommMonoid M]
    (l : List α) (k : α → κ) (f : α → M) (build : κ → β) (proj : β → M)
    (hproj : ∀ c ∈ (l.map k).dedup,
      proj (build c) = ((l.filter fun x => k x = c).map f).sum) :
    (((l.map k).dedup.map build).map proj).sum = (l.map f).sum := by
  rw [List.map_map]
  have h2 : List.map (proj ∘ build) ((l.map k).dedup)
      = List.map (fun c => ((l.filter fun x => k x = c).map f).sum) ((l.map k).dedup) :=
    List.map_congr_left fun c hc => hproj c hc
  rw [h2]
  exact sum_groupSum _ k f (List.nodup_dedup _) l
    (fun x hx => List.mem_dedup.mpr (List.mem_map_of_mem k hx))

/-- The filtered variant: summing a projection over the built entries whose
key satisfies `sel` recovers the sum over elements whose key satisfies
`sel`. -/
theorem sum_proj_built_filter {α κ M β : Type} [DecidableEq κ] [AddCommMonoid M]
    (l : List α) (k : α → κ) (f : α → M) (build : κ → β) (proj : β → M)
    (q : β → Prop) [DecidablePred q] (sel : κ → Prop) [DecidablePred sel]
    (hq : ∀ c, q (build c) ↔ sel c)
    (hproj : ∀ c ∈ (l.map k).dedup,
      proj (build c) = ((l.filter fun x => k x = c).map f).sum) :
    ((((l.map k).dedup.map build).filter fun b => q b).map proj).sum
      = ((l.filter fun x => sel (k x)).map f).sum := by
  rw [List.filter_map]
  have h1 : (l.map k).dedup.filter ((fun b => decide (q b)) ∘ build)
      = (l.map k).dedup.filter fun c => sel c := by
    apply List.filter_congr
    intro c _
    simp only [Function.comp_apply, decide_eq_decide]
    exact hq c
  rw [h1, List.map_map]
  have h2 : List.map (proj ∘ build) ((l.map k).dedup.filter fun c => sel c)
      = List.map (fun c => ((l.filter fun x => k x = c).map f).sum)
          ((l.map k).dedup.filter fun c => sel c) :=
    List.map_congr_left fun c hc => hproj c (List.mem_of_mem_filter hc)
  rw [h2]
  exact sum_groupSum_filter k f sel l

/-! ## Characterisation of the workload pipeline -/

/-- A `workload_summary` group's weighted value (count times the first
member's weight) equals the sum of its members' weights, because all members
of a (manager, time, category) group share the key's category. -/
theorem ws_weighted_eq (g : TimeBucket) (rows : List Row)
    (c : String × String × String)
    (hc : c ∈ ((keyedRows g rows).map tripleKeyOf).dedup) :
    ((((keyedRows g rows).filter fun p => tripleKeyOf p = c).length : ℚ)) *
      ((((keyedRows g rows).filter fun p => tripleKeyOf p = c).head?.map
        fun p => weightOf p.1.businessCategory).getD 0)
      = (((keyedRows g rows).filter fun p => tripleKeyOf p = c).map
          fun p => weightOf p.1.businessCategory).sum := by
  set grp := (keyedRows g rows).filter fun p => tripleKeyOf p = c with hgrp
  have hmemw : ∀ p ∈ grp, weightOf p.1.businessCategory = weightOf c.2.2 := by
    intro p hp
    have h := of_decide_eq_true (List.mem_filter.mp hp).2
    rw [← h]
    rfl
  obtain ⟨p0, hp0k, hp0c⟩ := List.mem_map.mp (List.mem_dedup.mp hc)
  have hp0 : p0 ∈ grp := List.mem_filter.mpr ⟨hp0k, decide_eq_true hp0c⟩
  obtain ⟨a, t, hgrp2⟩ := List.exists_cons_of_ne_nil (List.ne_nil_of_mem hp0)
  have ha : a ∈ grp := by rw [hgrp2]; exact List.mem_cons_self _ _
  rw [sum_map_const_rat hmemw, hgrp2]
  simp only [List.head?_cons, Option.map_some', Option.getD_some]
  rw [hmemw a ha]

/-- A present close date always yields a time-group key. -/
theorem timeGroupOf_isSome {g : TimeBucket} {od : Option Date} (h : od.isSome) :
    (timeGroupOf g od).isSome := by
  cases g <;> cases od <;> simp [timeGroupOf] at h ⊢

/-- When every row has a close date, the keyed rows are exactly the rows. -/
theorem keyedRows_map_fst (g : TimeBucket) (rows : List Row)
    (h : ∀ r ∈ rows, r.closeDate.isSome) :
    (keyedRows g rows).map Prod.fst = rows := by
  induction rows with
  | nil => rfl
  | cons r t ih =>
    have hr : (timeGroupOf g r.closeDate).isSome :=
      timeGroupOf_isSome (h r (List.mem_cons_self _ _))
    obtain ⟨k, hk⟩ := Option.isSome_iff_exists.mp hr
    simp only [keyedRows, List.filterMap_cons, hk, Option.map_some']
    simp only [keyedRows] at ih
    rw [List.map_cons, ih (fun y hy => h y (List.mem_cons_of_mem _ hy))]

/-- Filtering keyed rows on a row property and projecting gives the filtered
rows. -/
theorem keyedRows_filter_fst (g : TimeBucket) (rows : List Row)
    (h : ∀ r ∈ rows, r.closeDate.isSome) (P : Row → Prop) [DecidablePred P] :
    ((keyedRows g rows).filter fun p => P p.1).map Prod.fst
      = rows.filter fun r => P r := by
  conv_rhs => rw [← keyedRows_map_fst g rows h]
  rw [List.filter_map]
  rfl

/-- Length form of `keyedRows_filter_fst`. -/
theorem keyedRows_filter_length (g : TimeBucket) (rows : List Row)
    (h : ∀ r ∈ rows, r.closeDate.isSome) (P : Row → Prop) [DecidablePred P] :
    ((keyedRows g rows).filter fun p => P p.1).length
      = (rows.filter fun r => P r).length := by
  rw [← keyedRows_filter_fst g rows h P, List.length_map]

/-- Weight-sum form of `keyedRows_filter_fst`. -/
theorem keyedRows_filter_weight_sum (g : TimeBucket) (rows : List Row)
    (h : ∀ r ∈ rows, r.closeDate.isSome) (P : Row → Prop) [DecidablePred P] :
    (((keyedRows g rows).filter fun p => P p.1).map
        fun p => weightOf p.1.businessCategory).sum
      = ((rows.filter fun r => P r).map fun r => weightOf r.businessCategory).sum := by
  rw [← keyedRows_filter_fst g rows h P, List.map_map]
  rfl

/-- Weight sum over all keyed rows equals the weight sum over the rows. -/
theorem keyedRows_weight_sum (g : TimeBucket) (rows : List Row)
    (h : ∀ r ∈ rows, r.closeDate.isSome) :
    ((keyedRows g rows).map fun p => weightOf p.1.businessCategory).sum
      = (rows.map fun r => weightOf r.businessCategory).sum := by
  conv_rhs => rw [← keyedRows_map_fst g rows h]
  rw [List.map_map]
  rfl

/-- Count minus weight-sum is half the Flood count. -/
theorem length_sub_weight_sum (l : List (Row × String)) :
    ((l.length : ℚ)) - (l.map fun p => weightOf p.1.businessCategory).sum
      = 0.5 * ((l.filter fun p => p.1.businessCategory = "Flood").length : ℚ) := by
  induction l with
  | nil => simp
  | cons p t ih =>
    have hsplit : ((p :: t).filter fun q => q.1.businessCategory = "Flood").length
        = (if p.1.businessCategory = "Flood" then 1 else 0)
          + (t.filter fun q => q.1.businessCategory = "Flood").length := by
      by_cases hf : p.1.businessCategory = "Flood" <;> simp [List.filter_cons, hf] <;> omega
    rw [List.length_cons, List.map_cons, List.sum_cons, hsplit]
    have hw : weightOf p.1.businessCategory
        = if p.1.businessCategory = "Flood" then 0.5 else 1.0 := rfl
    rw [hw]
    by_cases hf : p.1.businessCategory = "Flood"
    · rw [if_pos hf, if_pos hf]
      push_cast
      linarith [ih]
    · rw [if_neg hf, if_neg hf]
      push_cast
      linarith [ih]

/-- The weight sum splits as non-Flood count times 1 plus Flood count times
0.5. -/
theorem weight_sum_split (l : List Row) :
    (l.map fun r => weightOf r.businessCategory).sum
      = ((l.filter fun r => r.businessCategory ≠ "Flood").length : ℚ) * 1 +
        ((l.filter fun r => r.businessCategory = "Flood").length : ℚ) * 0.5 := by
  induction l with
  | nil => simp
  | cons r t ih =>
    have h1 : ((r :: t).filter fun x => x.businessCategory ≠ "Flood").length
        = (if r.businessCategory = "Flood" then 0 else 1)
          + (t.filter fun x => x.businessCategory ≠ "Flood").length := by
      by_cases hf : r.businessCategory = "Flood" <;> simp [List.filter_cons, hf] <;> omega
    have h2 : ((r :: t).filter fun x => x.businessCategory = "Flood").length
        = (if r.businessCategory = "Flood" then 1 else 0)
          + (t.filter fun x => x.businessCategory = "Flood").length := by
      by_cases hf : r.businessCategory = "Flood" <;> simp [List.filter_cons, hf] <;> omega
    rw [List.map_cons, List.sum_cons, ih, h1, h2]
    have hw : weightOf r.businessCategory
        = if r.businessCategory = "Flood" then 0.5 else 1.0 := rfl
    rw [hw]
    by_cases hf : r.businessCategory = "Flood"
    · rw [if_pos hf, if_pos hf, if_pos hf]
      push_cast
      ring
    · rw [if_neg hf, if_neg hf, if_neg hf]
      push_cast
      ring

/-- The `time_totals` build function, spelled out. -/
def ttBuild (g : TimeBucket) (rows : List Row) (c : String × String) : TimeTotalsEntry :=
  { manager := c.1
    timeGroup := c.2
    count := (((workload_summary g rows).filter
      fun e => (e.manager, e.timeGroup) = c).map WorkloadSummaryEntry.count).sum
    weighted := (((workload_summary g rows).filter
      fun e => (e.manager, e.timeGroup) = c).map WorkloadSummaryEntry.weighted).sum }

/-- The `am_summary` build function, spelled out. -/
def amBuild (g : TimeBucket) (rows : List Row) (m : String) : AmSummaryEntry :=
  { manager := m
    count := (((time_totals g rows).filter fun e => e.manager = m).map
      TimeTotalsEntry.count).sum
    weighted := (((time_totals g rows).filter fun e => e.manager = m).map
      TimeTotalsEntry.weighted).sum
    reduction := (((((time_totals g rows).filter fun e => e.manager = m).map
      TimeTotalsEntry.count).sum : ℕ) : ℚ) - (((time_totals g rows).filter
        fun e => e.manager = m).map TimeTotalsEntry.weighted).sum }

/-- Per-manager count sums collapse from `time_totals` to `workload_summary`. -/
theorem tt_sum_filter_count (g : TimeBucket) (rows : List Row) (m : String) :
    (((time_totals g rows).filter fun x => x.manager = m).map TimeTotalsEntry.count).sum
      = (((workload_summary g rows).filter fun x => x.manager = m).map
          WorkloadSummaryEntry.count).sum := by
  simp only [time_totals]
  have h := sum_proj_built_filter (workload_summary g rows)
      (fun e => (e.manager, e.timeGroup)) WorkloadSummaryEntry.count
      (ttBuild g rows)
      TimeTotalsEntry.count (fun b => b.manager = m) (fun c => c.1 = m)
      (fun c => Iff.rfl) (fun c _ => rfl)
  refine h.trans ?_
  exact congrArg List.sum
    (congrArg (List.map WorkloadSummaryEntry.count) (List.filter_congr fun x _ => rfl))

/-- Per-manager weighted sums collapse from `time_totals` to
`workload_summary`. -/
theorem tt_sum_filter_weighted (g : TimeBucket) (rows : List Row) (m : String) :
    (((time_totals g rows).filter fun x => x.manager = m).map TimeTotalsEntry.weighted).sum
      = (((workload_summary g rows).filter fun x => x.manager = m).map
          WorkloadSummaryEntry.weighted).sum := by
  simp only [time_totals]
  have h := sum_proj_built_filter (workload_summary g rows)
      (fun e => (e.manager, e.timeGroup)) WorkloadSummaryEntry.weighted
      (ttBuild g rows)
      TimeTotalsEntry.weighted (fun b => b.manager = m) (fun c => c.1 = m)
      (fun c => Iff.rfl) (fun c _ => rfl)
  refine h.trans ?_
  exact congrArg List.sum
    (congrArg (List.map WorkloadSummaryEntry.weighted) (List.filter_congr fun x _ => rfl))

/-- The `workload_summary` build function, spelled out. -/
def wsBuild (g : TimeBucket) (rows : List Row)
    (c : String × String × String) : WorkloadSummaryEntry :=
  { manager := c.1, timeGroup := c.2.1, category := c.2.2,
    count := ((keyedRows g rows).filter fun p => tripleKeyOf p = c).length,
    weighted := (((keyedRows g rows).filter fun p => tripleKeyOf p = c).length : ℚ) *
      ((((keyedRows g rows).filter fun p => tripleKeyOf p = c).head?.map
        fun p => weightOf p.1.businessCategory).getD 0) }

/-- Per-manager count sums collapse from `workload_summary` to the keyed
rows. -/
theorem ws_sum_filter_count (g : TimeBucket) (rows : List Row) (m : String) :
    (((workload_summary g rows).filter fun x => x.manager = m).map
        WorkloadSummaryEntry.count).sum
      = ((keyedRows g rows).filter fun p => p.1.accountManager = m).length := by
  simp only [workload_summary]
  have h := sum_proj_built_filter (keyedRows g rows) tripleKeyOf (fun _ => (1 : ℕ))
      (wsBuild g rows) WorkloadSummaryEntry.count
      (fun b => b.manager = m) (fun c => c.1 = m)
      (fun c => Iff.rfl) (fun c _ => (sum_map_one _).symm)
  refine h.trans ?_
  rw [sum_map_one]
  exact congrArg List.length (List.filter_congr fun p _ => rfl)

/-- Per-manager weighted sums collapse from `workload_summary` to the keyed
rows' weights. -/
theorem ws_sum_filter_weighted (g : TimeBucket) (rows : List Row) (m : String) :
    (((workload_summary g rows).filter fun x => x.manager = m).map
        WorkloadSummaryEntry.weighted).sum
      = (((keyedRows g rows).filter fun p => p.1.accountManager = m).map
          fun p => weightOf p.1.businessCategory).sum := by
  simp only [workload_summary]
  have h := sum_proj_built_filter (keyedRows g rows) tripleKeyOf
      (fun p => weightOf p.1.businessCategory)
      (wsBuild g rows) WorkloadSummaryEntry.weighted
      (fun b => b.manager = m) (fun c => c.1 = m)
      (fun c => Iff.rfl) (fun c hc => ws_weighted_eq g rows c hc)
  refine h.trans ?_
  exact congrArg List.sum (congrArg (List.map _) (List.filter_congr fun p _ => rfl))

/-- Every `am_summary` entry's count and weighted total are sums over that
manager's keyed rows, and its reduction is count minus weighted. -/
theorem am_summary_entry_char (g : TimeBucket) (rows : List Row) (e : AmSummaryEntry)
    (he : e ∈ am_summary g rows) :
    e.count = ((keyedRows g rows).filter fun p => p.1.accountManager = e.manager).length ∧
    e.weighted = (((keyedRows g rows).filter fun p => p.1.accountManager = e.manager).map
      fun p => weightOf p.1.businessCategory).sum ∧
    e.reduction = (e.count : ℚ) - e.weighted := by
  simp only [am_summary, sortValuesDesc, List.mem_insertionSort] at he
  obtain ⟨m, _, rfl⟩ := List.mem_map.mp he
  exact ⟨(tt_sum_filter_count g rows m).trans (ws_sum_filter_count g rows m),
    (tt_sum_filter_weighted g rows m).trans (ws_sum_filter_weighted g rows m), rfl⟩

/-- Total weighted sums collapse from `time_totals` to `workload_summary`. -/
theorem tt_weighted_total (g : TimeBucket) (rows : List Row) :
    ((time_totals g rows).map TimeTotalsEntry.weighted).sum
      = ((workload_summary g rows).map WorkloadSummaryEntry.weighted).sum := by
  simp only [time_totals]
  exact sum_proj_built_all (workload_summary g rows)
      (fun e => (e.manager, e.timeGroup)) WorkloadSummaryEntry.weighted
      (ttBuild g rows)
      TimeTotalsEntry.weighted (fun c _ => rfl)

/-- Total weighted sums collapse from `workload_summary` to the keyed rows'
weights. -/
theorem ws_weighted_total (g : TimeBucket) (rows : List Row) :
    ((workload_summary g rows).map WorkloadSummaryEntry.weighted).sum
      = ((keyedRows g rows).map fun p => weightOf p.1.businessCategory).sum := by
  simp only [workload_summary]
  exact sum_proj_built_all (keyedRows g rows) tripleKeyOf
      (fun p => weightOf p.1.businessCategory) (wsBuild g rows)
      WorkloadSummaryEntry.weighted (fun c hc => ws_weighted_eq g rows c hc)

/-- The grand weighted total of `am_summary` is the weight sum of the keyed
rows. -/
theorem am_weighted_total (g : TimeBucket) (rows : List Row) :
    ((am_summary g rows).map AmSummaryEntry.weighted).sum
      = ((keyedRows g rows).map fun p => weightOf p.1.businessCategory).sum := by
  simp only [am_summary, sortValuesDesc]
  rw [List.Perm.sum_eq (List.Perm.map AmSummaryEntry.weighted
    (List.perm_insertionSort _ _))]
  have h1 := sum_proj_built_all (time_totals g rows) TimeTotalsEntry.manager
      TimeTotalsEntry.weighted
      (amBuild g rows)
      AmSummaryEntry.weighted (fun c _ => rfl)
  exact h1.trans ((tt_weighted_total g rows).trans (ws_weighted_total g rows))

/-- C4: for rows that all carry a close date (the workload allocator's input
contract), the grand weighted total is exactly (non-Flood count) * 1.0 +
(Flood count) * 0.5; every manager's workload reduction equals 0.5 times that
manager's Flood row count and is non-negative; and no category other than
Flood receives a non-unit weight. -/
theorem workload_flood_weighting (g : TimeBucket) (rows : List Row)
    (hdates : ∀ r ∈ rows, r.closeDate.isSome) :
    ((am_summary g rows).map AmSummaryEntry.weighted).sum
        = ((rows.filter fun r => r.businessCategory ≠ "Flood").length : ℚ) * 1 +
          ((rows.filter fun r => r.businessCategory = "Flood").length : ℚ) * 0.5 ∧
    (∀ e ∈ am_summary g rows,
      e.reduction = (e.count : ℚ) - e.weighted ∧
      e.reduction = 0.5 * ((rows.filter fun r =>
        r.accountManager = e.manager ∧ r.businessCategory = "Flood").length : ℚ) ∧
      0 ≤ e.reduction) ∧
    (∀ c : String, c ≠ "Flood" → weightOf c = 1) := by
  refine ⟨?_, ?_, fun c hc => by simp only [weightOf, if_neg hc]; norm_num⟩
  · rw [am_weighted_total, keyedRows_weight_sum g rows hdates, weight_sum_split]
  · intro e he
    obtain ⟨hcnt, hwtd, hred⟩ := am_summary_entry_char g rows e he
    have h5 : (((keyedRows g rows).filter fun p => p.1.accountManager = e.manager).filter
          fun p => p.1.businessCategory = "Flood").length
        = (rows.filter fun r =>
            r.accountManager = e.manager ∧ r.businessCategory = "Flood").length := by
      rw [filter_filter_and]
      exact keyedRows_filter_length g rows hdates
        (fun r => r.accountManager = e.manager ∧ r.businessCategory = "Flood")
    refine ⟨hred, ?_, ?_⟩
    · rw [hred, hcnt, hwtd, length_sub_weight_sum, h5]
    · rw [hred, hcnt, hwtd, length_sub_weight_sum]
      positivity

/-- Witness for C4 at a concrete run (two dated Auto rows, monthly buckets). -/
theorem workload_flood_weighting_witness :
    ((am_summary TimeBucket.month sampleRetentionRows).map AmSummaryEntry.weighted).sum
        = ((sampleRetentionRows.filter fun r =>
            r.businessCategory ≠ "Flood").length : ℚ) * 1 +
          ((sampleRetentionRows.filter fun r =>
            r.businessCategory = "Flood").length : ℚ) * 0.5 ∧
    (∀ e ∈ am_summary TimeBucket.month sampleRetentionRows,
      e.reduction = (e.count : ℚ) - e.weighted ∧
      e.reduction = 0.5 * ((sampleRetentionRows.filter fun r =>
        r.accountManager = e.manager ∧ r.businessCategory = "Flood").length : ℚ) ∧
      0 ≤ e.reduction) ∧
    (∀ c : String, c ≠ "Flood" → weightOf c = 1) :=
  workload_flood_weighting TimeBucket.month sampleRetentionRows (by decide)

/-! ## The missing-close-date claim -/

/-- A row with no close date (an open "Auto" opportunity of Alice). -/
def sampleNoDateRow : Row :=
  { sampleWonRow with
    stageName := "New"
    statusCategory := "Open"
    closeDate := none
    premium := 0 }

/-- A row with no close date classified `"Other"`. -/
def sampleOtherRow : Row :=
  { sampleNoDateRow with businessType := "Not Specified", businessCategory := "Other" }

/-- Counterexample to C8 as stated: with a span over 365 days the bucket is
quarterly, and there `to_period('Q').astype(str)` turns a missing close date
into the literal string `"NaT"` — so the row *does* land in a
(manager, `"NaT"`) group of the workload aggregation, with count 1.
Also, a row whose category is `"Other"` contributes to no category-level
retention count at all. -/
theorem missing_close_date_counterexample :
    timeBucketOf 400 = TimeBucket.quarter ∧
    time_totals TimeBucket.quarter [sampleNoDateRow] =
      [{ manager := "Alice", timeGroup := "NaT", count := 1, weighted := 1 }] ∧
    am_summary TimeBucket.quarter [sampleNoDateRow] =
      [{ manager := "Alice", count := 1, weighted := 1, reduction := 0 }] ∧
    calculate_retention_rates [sampleOtherRow] = [] := by
  refine ⟨rfl, ?_, ?_, ?_⟩
  · simp +decide [time_totals, workload_summary, keyedRows, timeGroupOf, tripleKeyOf,
      weightOf, sampleNoDateRow, sampleWonRow]
    norm_num
  · simp +decide [am_summary, time_totals, workload_summary, keyedRows, timeGroupOf,
      tripleKeyOf, weightOf, sortValuesDesc, List.insertionSort, List.orderedInsert,
      sampleNoDateRow, sampleWonRow]
    norm_num
  · simp +decide [calculate_retention_rates, retentionEntryFor, get_core_lines,
      sampleOtherRow, sampleNoDateRow, sampleWonRow]

/-- C8 (amended): with daily, weekly or monthly granularity a row with no
resolvable close date contributes to no (manager, time-bucket) group of the
workload aggregation; under quarterly granularity such a row is keyed into
the sentinel `"NaT"` bucket instead.  The row contributes to the
category-level retention counts exactly when its business category is a core
line. -/
theorem missing_close_date_amended (g : TimeBucket) (rows : List Row) (r : Row)
    (hr : r.closeDate = none) :
    (g ≠ TimeBucket.quarter →
      workload_summary g (r :: rows) = workload_summary g rows ∧
      time_totals g (r :: rows) = time_totals g rows ∧
      am_summary g (r :: rows) = am_summary g rows) ∧
    (g = TimeBucket.quarter → (r, "NaT") ∈ keyedRows g (r :: rows)) ∧
    (r.businessCategory ∈ get_core_lines →
      ∃ e ∈ calculate_retention_rates (r :: rows),
        e.businessCategory = r.businessCategory ∧
        e.total = (rows.filter fun x =>
          x.businessCategory = r.businessCategory).length + 1) ∧
    (r.businessCategory ∉ get_core_lines →
      ∀ e ∈ calculate_retention_rates (r :: rows),
        e.businessCategory ≠ r.businessCategory) := by
  refine ⟨?_, ?_, ?_, ?_⟩
  · intro hgq
    have hkey : timeGroupOf g r.closeDate = none := by
      rw [hr]
      cases g with
      | quarter => exact absurd rfl hgq
      | day => rfl
      | week => rfl
      | month => rfl
    have hkeyed : keyedRows g (r :: rows) = keyedRows g rows := by
      simp only [keyedRows, List.filterMap_cons, hkey, Option.map_none']
    have hws : workload_summary g (r :: rows) = workload_summary g rows := by
      simp only [workload_summary, hkeyed]
    have htt : time_totals g (r :: rows) = time_totals g rows := by
      simp only [time_totals, hws]
    have ham : am_summary g (r :: rows) = am_summary g rows := by
      simp only [am_summary, htt]
    exact ⟨hws, htt, ham⟩
  · intro hgq
    subst hgq
    have hkey : timeGroupOf TimeBucket.quarter r.closeDate = some "NaT" := by
      rw [hr]
      rfl
    simp only [keyedRows, List.filterMap_cons, hkey, Option.map_some']
    exact List.mem_cons_self _ _
  · intro hcore
    have hfil : ((r :: rows).filter fun x => x.businessCategory = r.businessCategory)
        = r :: (rows.filter fun x => x.businessCategory = r.businessCategory) := by
      simp [List.filter_cons]
    have hpos : 0 < ((r :: rows).filter fun x =>
        x.businessCategory = r.businessCategory).length := by
      rw [hfil]
      exact Nat.succ_pos _
    obtain ⟨e, hsome⟩ := retentionEntryFor_isSome hpos
    have hchar := retentionEntryFor_eq_some hsome
    refine ⟨e, mem_calculate_retention_rates.mpr ⟨r.businessCategory, hcore, hsome⟩,
      hchar.1, ?_⟩
    rw [hchar.2.1, hfil, List.length_cons]
  · intro hnc e he heq
    obtain ⟨c0, hc0, hsome⟩ := mem_calculate_retention_rates.mp he
    have hb := (retentionEntryFor_eq_some hsome).1
    exact hnc ((hb.symm.trans heq) ▸ hc0)

/-- Witness for the amended C8: the no-date Auto row at daily granularity. -/
theorem missing_close_date_amended_witness :
    (TimeBucket.day ≠ TimeBucket.quarter →
      workload_summary TimeBucket.day [sampleNoDateRow]
          = workload_summary TimeBucket.day [] ∧
      time_totals TimeBucket.day [sampleNoDateRow] = time_totals TimeBucket.day [] ∧
      am_summary TimeBucket.day [sampleNoDateRow] = am_summary TimeBucket.day []) ∧
    (TimeBucket.day = TimeBucket.quarter →
      (sampleNoDateRow, "NaT") ∈ keyedRows TimeBucket.day [sampleNoDateRow]) ∧
    (sampleNoDateRow.businessCategory ∈ get_core_lines →
      ∃ e ∈ calculate_retention_rates [sampleNoDateRow],
        e.businessCategory = sampleNoDateRow.businessCategory ∧
        e.total = (([] : List Row).filter fun x =>
          x.businessCategory = sampleNoDateRow.businessCategory).length + 1) ∧
    (sampleNoDateRow.businessCategory ∉ get_core_lines →
      ∀ e ∈ calculate_retention_rates [sampleNoDateRow],
        e.businessCategory ≠ sampleNoDateRow.businessCategory) :=
  missing_close_date_amended TimeBucket.day [] sampleNoDateRow rfl

end Coreline
